import Mathlib

/-!
Verification of the core logic of the learn-at-home backend.

The development shallowly embeds the teaching-demand controller
(`sendDemand`, `acceptDemand`, `cancelDemand`, `getAllDemands`), the message
controller (`sendMessage`, the last-message aggregation pipeline and its
resolver `getLastMessagesBetweenTwoUsers`), and the generic list-query
engine (`APIFeatures` / `getAll`).

Modelling conventions:
- MongoDB ObjectIds and usernames are modelled as `Nat` (both are unique
  per user in the schema, so identifying a user by a single `Nat` is
  faithful), timestamps as `Nat`.
- A collection is a `List` of documents in insertion order; `findOne`
  without a sort returns the first match, `findOneAndUpdate` rewrites the
  first match, `updateMany` rewrites every match.
- Express handlers that call `next(new AppError(...))` and return are
  modelled with `Except AppError`; a handler that raises an error but
  keeps executing (a missing `return` in the source) is modelled by
  returning the raised error alongside the mutated store.
-/

namespace LearnAtHome

/-- Operational error raised by the handlers (the `AppError` class:
a message and an HTTP status code). -/
structure AppError where
  message : String
  statusCode : Nat
deriving Repr, DecidableEq

/-- A document of the `Teaching_demand` collection (teachingDemandModel.js):
`sender` and `receiver` are user references, `accepted` and `cancelled`
both default to `false`.  The `id` field models the Mongo `_id`. -/
structure Demand where
  id : Nat
  sender : Nat
  receiver : Nat
  sent : Nat
  accepted : Bool
  cancelled : Bool
deriving Repr, DecidableEq

/-- The slice of a `User` document (userModel.js) that the supervision
logic touches: `role`, `supervisor` (nullable reference) and `supervised`
(array of references, schema default `[]`). -/
structure UserR where
  role : String
  supervisor : Option Nat
  supervised : List Nat
deriving Repr, DecidableEq

/-- Store state for the teaching-demand subsystem: the demand collection,
the user collection (an association list keyed by `_id`), the next fresh
`_id` and the current clock (`Date.now()`). -/
structure DSt where
  demands : List Demand
  users : List (Nat × UserR)
  nextId : Nat
  now : Nat
deriving Repr, DecidableEq

/-- Mongo `findOneAndUpdate({_id: i}, ...)` on the demand collection:
rewrite the first document whose `_id` matches (`_id` is unique in a
collection, so first-match equals every-match). -/
def findOneAndUpdateD (l : List Demand) (i : Nat) (f : Demand → Demand) : List Demand :=
  match l with
  | [] => []
  | d :: rest => if d.id == i then f d :: rest else d :: findOneAndUpdateD rest i f

/-- Mongo `User.findByIdAndUpdate` on the user collection. -/
def updateUserById (us : List (Nat × UserR)) (i : Nat) (f : UserR → UserR) :
    List (Nat × UserR) :=
  us.map (fun p => if p.1 == i then (p.1, f p.2) else p)

/-- Mongo `User.findById`. -/
def getUser (us : List (Nat × UserR)) (i : Nat) : Option UserR :=
  (us.find? (fun p => p.1 == i)).map (·.2)

/-- The `sendDemand` handler (teachingDemandController, `exports.sendDemand`):
reject with a 400 conflict when a non-cancelled demand for the pair exists
(message depending on whether it is accepted) or when the sender already
has an accepted demand with any receiver.  Otherwise the source evaluates
`TeachingDemand.create({...}).populate({...})`: with mongoose 7
`Model.create` returns a Promise, which has no `populate`, so the insert
is initiated (the pending demand is persisted) but the handler throws a
TypeError that surfaces as a 500 — the created demand is never returned
and the 201 response is never sent.  Every path therefore raises an
error; the result is the raised error together with the store after the
call. -/
def sendDemand (st : DSt) (sender receiver : Nat) : AppError × DSt :=
  match st.demands.find?
      (fun d => d.sender == sender && d.receiver == receiver && d.cancelled == false) with
  | some existingDemand =>
    (⟨if existingDemand.accepted then
        "You are already collaborating with this teacher."
      else
        "There is a pending teaching request sent to this teacher.", 400⟩, st)
  | none =>
    match st.demands.find? (fun d => d.sender == sender && d.accepted == true) with
    | some _ => (⟨"You can't have multiple mentors.", 400⟩, st)
    | none =>
      let newDemand : Demand :=
        ⟨st.nextId, sender, receiver, st.now, false, false⟩
      (⟨"TeachingDemand.create(...).populate is not a function", 500⟩,
       { st with demands := st.demands ++ [newDemand],
                 nextId := st.nextId + 1,
                 now := st.now + 1 })

/-- The `acceptDemand` handler (teachingDemandController,
`exports.acceptDemand`): 404 when the demand is absent, 403 when the actor
is not the receiver, 400 when the demand is cancelled; otherwise set
`accepted`, cancel every demand of the same sender towards another
receiver, set the sender's `supervisor`, and write the receiver's
`supervised` array.  The source has no guard against a demand that is
already accepted.  When the receiver user is absent the source
dereferences `null` (`supervisor.supervised`), which surfaces as a 500.
The `supervised` path is `select: false` in userSchema and the
`User.findById(receiver)` has no `.select`, so the loaded document
carries `supervised` as undefined: `supervisor.supervised?.map(...) || []`
is always `[]`, the push yields the singleton `[sender]`, and
`findByIdAndUpdate` writes that singleton over the stored array. -/
def acceptDemand (st : DSt) (actor demandId : Nat) : Except AppError DSt :=
  match st.demands.find? (fun d => d.id == demandId) with
  | none => .error ⟨"No teachind demand found with that Id.", 404⟩
  | some demand =>
    if demand.receiver != actor then
      .error ⟨"You can't accept demands that weren't sent to you.", 403⟩
    else if demand.cancelled then
      .error ⟨"You can't accept demands that were cancelled.", 400⟩
    else
      let demands1 := findOneAndUpdateD st.demands demand.id
        (fun d => { d with accepted := true })
      let updatedDemand := { demand with accepted := true }
      let demands2 := demands1.map (fun d =>
        if d.sender == updatedDemand.sender && d.receiver != updatedDemand.receiver then
          { d with cancelled := true }
        else d)
      let users1 := updateUserById st.users updatedDemand.sender
        (fun u => { u with supervisor := some updatedDemand.receiver })
      match getUser users1 updatedDemand.receiver with
      | none => .error ⟨"Cannot read properties of null", 500⟩
      | some _ =>
        -- the loaded `supervised` is undefined (`select: false`), so the
        -- source builds [] and pushes the sender onto it
        let supervised := [updatedDemand.sender]
        let users2 := updateUserById users1 updatedDemand.receiver
          (fun u => { u with supervised := supervised })
        .ok { st with demands := demands2, users := users2 }

/-- The `cancelDemand` handler (teachingDemandController,
`exports.cancelDemand`): 404 when the demand is absent; when the actor is
not the receiver the source errors with 403 in both branches of the inner
test (also when the actor is the sender); 400 when the demand is accepted;
otherwise set `cancelled`. -/
def cancelDemand (st : DSt) (actor demandId : Nat) : Except AppError DSt :=
  match st.demands.find? (fun d => d.id == demandId) with
  | none => .error ⟨"No teaching demand found with that ID.", 404⟩
  | some demand =>
    if demand.receiver != actor then
      if demand.sender != actor then
        .error ⟨"You can't cancel demands that you didn't sent.", 403⟩
      else
        .error ⟨"You can't cancel demands that weren't sent to you.", 403⟩
    else if demand.accepted then
      .error ⟨"You can't cancel demands that were accepted.", 400⟩
    else
      .ok { st with demands :=
        findOneAndUpdateD st.demands demand.id (fun d => { d with cancelled := true }) }

/-- Run one accept call, keeping the previous state when the handler
errors (the store is untouched on the error paths). -/
def applyAccept (st : DSt) (step : Nat × Nat) : DSt :=
  match acceptDemand st step.1 step.2 with
  | .ok st' => st'
  | .error _ => st

/-- Run a sequence of accept calls. -/
def runAccepts (st : DSt) (steps : List (Nat × Nat)) : DSt :=
  steps.foldl applyAccept st

/-- Field selected by the `getAllDemands` filter
(`[role === 'student' ? 'sender' : 'teacher']`). -/
def getAllDemandsFilterField (role : String) : String :=
  if role == "student" then "sender" else "teacher"

/-- The paths declared by `teachingDemandSchema` (teachingDemandModel.js). -/
def teachingDemandSchemaFields : List String :=
  ["sent", "sender", "receiver", "accepted", "cancelled"]

/-- Mongo equality filter `{field: v}` evaluated on one demand document
with mongoose 7 semantics (`strictQuery` defaults to `false`, so a filter
on a path the schema does not declare is kept as written and matches no
document, because no stored demand carries such a path): `sender` and
`receiver` are the only participant paths. -/
def demandFieldIs (d : Demand) (field : String) (v : Nat) : Bool :=
  if field == "sender" then d.sender == v
  else if field == "receiver" then d.receiver == v
  else if field == "sent" then d.sent == v
  else false

/-- The `getAllDemands` handler (teachingDemandController,
`exports.getAllDemands`): filter the demand collection on `sender` for
students and on `teacher` for every other role. -/
def getAllDemands (demands : List Demand) (id : Nat) (role : String) : List Demand :=
  demands.filter (fun d => demandFieldIs d (getAllDemandsFilterField role) id)

/-- A document of the `Message` collection (messageModel.js): `content` is
optional in the schema (no `required`), `files` defaults to `[]`, `read`
to `false`; `indexMessage` is required. -/
structure Msg where
  id : Nat
  content : Option String
  sender : Nat
  receiver : Nat
  sent : Nat
  indexMessage : Nat
  files : List String
  read : Bool
deriving Repr, DecidableEq

/-- Store state for the message subsystem: the message collection, the
next fresh `_id` and the current clock (`Date.now()`). -/
structure MSt where
  messages : List Msg
  nextId : Nat
  now : Nat
deriving Repr, DecidableEq

/-- The pair filter of `sendMessage`'s `findOne`
(`$or: [{sender, receiver}, {sender: receiver, receiver: sender}]`). -/
def pairMsg (a b : Nat) (m : Msg) : Bool :=
  (m.sender == a && m.receiver == b) || (m.sender == b && m.receiver == a)

/-- One step of `.sort({sent: -1}).limit(1)`: keep the candidate with the
strictly larger `sent`. -/
def pickLater (acc : Option Msg) (m : Msg) : Option Msg :=
  match acc with
  | none => some m
  | some m' => if m'.sent < m.sent then some m else acc

/-- Result of `.sort({sent: -1}).limit(1)` over a list of documents: the
document with the greatest `sent` (the first such document when several
tie, matching one permissible Mongo ordering; the theorems that depend on
it assume distinct `sent` values). -/
def latestIn (l : List Msg) : Option Msg :=
  l.foldl pickLater none

/-- The `findOne` of `sendMessage`: latest-sent message between the two
users, in either direction. -/
def latestPairMessage (ms : List Msg) (a b : Nat) : Option Msg :=
  latestIn (ms.filter (pairMsg a b))

/-- JS `String.prototype.trim`: strip leading and trailing whitespace
(modelled on the character list of the string, so that it computes by
`rfl`). -/
def jsTrim (s : String) : List Char :=
  ((s.data.dropWhile Char.isWhitespace).reverse.dropWhile Char.isWhitespace).reverse

/-- JS emptiness test `!content?.trim().length` on the request body (an
absent `content` also passes the test, via optional chaining). -/
def contentBlank (content : Option String) : Bool :=
  (jsTrim (content.getD "")).length == 0

/-- The `sendMessage` handler (messageController, `exports.sendMessage`).
The empty-content test calls `next(new AppError(...))` WITHOUT `return` in
the source, so execution continues and the message is created regardless;
the model therefore returns the raised error (if any) alongside the new
store and the created message.  The new index is
`lastMessage ? ++lastMessage.indexMessage : 1` where `lastMessage` is the
latest-sent message of the pair. -/
def sendMessage (st : MSt) (sender receiver : Nat) (content : Option String)
    (files : Option (List String)) : Option AppError × MSt × Msg :=
  let emptyErr :=
    if (files.getD []).isEmpty && contentBlank content then
      some (AppError.mk "The content can't be empty." 400)
    else none
  let lastMessage := latestPairMessage st.messages sender receiver
  let indexMessage := match lastMessage with
    | some m => m.indexMessage + 1
    | none => 1
  let newMessage : Msg :=
    ⟨st.nextId, content, sender, receiver, st.now, indexMessage, files.getD [], false⟩
  (emptyErr,
   { st with messages := st.messages ++ [newMessage],
             nextId := st.nextId + 1,
             now := st.now + 1 },
   newMessage)

/-- Run a conversation between users `a` and `b`: each element of `dirs`
is one `sendMessage` call, `true` meaning `a` writes to `b` and `false`
the reverse, always with non-empty content and no files. -/
def runSends (st : MSt) (a b : Nat) (dirs : List Bool) : MSt :=
  dirs.foldl
    (fun st dir =>
      (sendMessage st (if dir then a else b) (if dir then b else a) (some "Hello") none).2.1)
    st

/-- Greatest `indexMessage` in a list of messages, `0` when empty. -/
def maxIndex (l : List Msg) : Nat :=
  (l.map (·.indexMessage)).foldl max 0

/-- The directed grouping key of the `$group` stage of `LAST_AGGR_OBJ`
(`_id: {sender: username, receiver: username}`; usernames are unique, so
the user reference stands for the username). -/
def dirKey (m : Msg) : Nat × Nat := (m.sender, m.receiver)

/-- The `$match` stage of `getLastMessages`: the user is sender or
receiver. -/
def involves (u : Nat) (m : Msg) : Bool := m.sender == u || m.receiver == u

/-- The group representatives produced by `LAST_AGGR_OBJ`: one entry per
directed `(sender, receiver)` pair present, carrying the fields of the
latest-sent message of that direction (the pipeline sorts by `sent`
descending and takes `$first` of each field, `$max` of `sent`). -/
def lastAggrEntries (ms : List Msg) : List Msg :=
  ((ms.map dirKey).dedup).filterMap
    (fun p => latestIn (ms.filter (fun m => dirKey m == p)))

/-- The final `$sort: {sent: -1}` stage of `LAST_AGGR_OBJ`. -/
def sortBySentDesc (l : List Msg) : List Msg :=
  List.insertionSort (fun x y => y.sent ≤ x.sent) l

/-- The resolver `getLastMessagesBetweenTwoUsers` (utils.js), one reduce
step: look in the accumulator for the entry keyed by the swapped pair and
keep whichever of the two has the later `sent`; push when absent. -/
def mergeStep (acc : List Msg) (message : Msg) : List Msg :=
  match acc.findIdx?
      (fun el => el.sender == message.receiver && el.receiver == message.sender) with
  | none => acc ++ [message]
  | some otherIndex =>
    match acc[otherIndex]? with
    | none => acc
    | some other =>
      if other.sent < message.sent then acc.set otherIndex message else acc

/-- The resolver `getLastMessagesBetweenTwoUsers` (utils.js): merge the
two directional groups of each unordered pair. -/
def getLastMessagesBetweenTwoUsers (queryMessages : List Msg) : List Msg :=
  queryMessages.foldl mergeStep []

/-- The `getLastMessages` handler (messageController,
`exports.getLastMessages`): `$match` on the user, the `LAST_AGGR_OBJ`
pipeline, then the resolver. -/
def getLastMessages (store : List Msg) (u : Nat) : List Msg :=
  getLastMessagesBetweenTwoUsers (sortBySentDesc (lastAggrEntries (store.filter (involves u))))

/-- The counterpart of the user in a message involving the user. -/
def counterpart (u : Nat) (m : Msg) : Nat :=
  if m.sender == u then m.receiver else m.sender

/-- The query engine (`APIFeatures.build/sort/limitFields/paginate`
composed as in `handlerFactory.getAll`): the document collection is taken in
its sorted order, `build` ANDs the query filter with the caller filter,
`paginate` runs only when `page` or `limit` is truthy, counts the WHOLE
collection (`countDocuments()` with no filter) and throws the page error
(mapped to a 404 `AppError` by `getAll`) when that count is at most
`skip`; otherwise the matching documents are sliced. -/
def getAll {α : Type} (docs : List α) (callerFilter queryFilter : α → Bool)
    (pageQ limitQ : Option Nat) : Except AppError (List α) :=
  let matching := docs.filter (fun d => queryFilter d && callerFilter d)
  let pageTruthy := match pageQ with | some p => p != 0 | none => false
  let limitTruthy := match limitQ with | some l => l != 0 | none => false
  if pageTruthy || limitTruthy then
    let page := match pageQ with | some p => if p == 0 then 1 else p | none => 1
    let limit := match limitQ with | some l => if l == 0 then 10 else l | none => 10
    let skip := (page - 1) * limit
    let nbDocs := docs.length
    if nbDocs ≤ skip then .error ⟨"This page doesn't exist.", 404⟩
    else .ok ((matching.drop skip).take limit)
  else .ok matching

/-! Concrete states used by the counterexamples and witnesses. -/

/-- A student user with no supervisor. -/
def studentRec : UserR := ⟨"student", none, []⟩

/-- A teacher user with no supervised students. -/
def teacherRec : UserR := ⟨"teacher", none, []⟩

/-- Student `0`, teacher `1`, one pending demand `0` from `0` to `1`. -/
def stPending : DSt :=
  ⟨[⟨0, 0, 1, 0, false, false⟩], [(0, studentRec), (1, teacherRec)], 1, 5⟩

/-- Student `0`, teacher `1`, one already accepted demand `0`. -/
def stAccepted : DSt :=
  ⟨[⟨0, 0, 1, 0, true, false⟩], [(0, studentRec), (1, teacherRec)], 1, 5⟩

/-- Student `0`, teacher `1`, one already cancelled demand `0`. -/
def stCancelled : DSt :=
  ⟨[⟨0, 0, 1, 0, false, true⟩], [(0, studentRec), (1, teacherRec)], 1, 5⟩

/-- Student `0`, teachers `1` and `2`, pending demands `0` (to `1`) and
`1` (to `2`). -/
def stTwoPending : DSt :=
  ⟨[⟨0, 0, 1, 0, false, false⟩, ⟨1, 0, 2, 0, false, false⟩],
   [(0, studentRec), (1, teacherRec), (2, teacherRec)], 2, 5⟩

/-- Students `0` and `2`, teacher `1`, pending demands `0` (from student
`0`) and `1` (from student `2`), both addressed to teacher `1`. -/
def stTwoStudents : DSt :=
  ⟨[⟨0, 0, 1, 0, false, false⟩, ⟨1, 2, 1, 0, false, false⟩],
   [(0, studentRec), (1, teacherRec), (2, studentRec)], 2, 5⟩

/-- Student `0` and teacher `1`, empty demand collection. -/
def stNoDemands : DSt := ⟨[], [(0, studentRec), (1, teacherRec)], 0, 0⟩

/-- The store after `sendDemand stNoDemands 0 1`: the pending demand was
persisted even though the handler crashed. -/
def stNoDemandsAfter : DSt :=
  ⟨[⟨0, 0, 1, 0, false, false⟩], [(0, studentRec), (1, teacherRec)], 1, 1⟩

/-- The after state of accepting demand `0` of `stTwoPending`. -/
def stTwoPendingAfter : DSt :=
  ⟨[⟨0, 0, 1, 0, true, false⟩, ⟨1, 0, 2, 0, false, true⟩],
   [(0, ⟨"student", some 1, []⟩), (1, ⟨"teacher", none, [0]⟩), (2, teacherRec)],
   2, 5⟩

/-- Conversation invariant for the unordered pair `{a, b}`: the stored
messages between `a` and `b` carry the indexes `1..k` in creation order,
their `sent` stamps strictly increase along that order, and all of them
lie strictly below the store clock. -/
def GoodPair (a b : Nat) (st : MSt) (k : Nat) : Prop :=
  ((st.messages.filter (pairMsg a b)).map (·.indexMessage) = List.range' 1 k)
  ∧ ((st.messages.filter (pairMsg a b)).map (·.sent)).Pairwise (· < ·)
  ∧ ∀ m ∈ st.messages.filter (pairMsg a b), m.sent < st.now

/-- Invariant of the reduce loop of `getLastMessagesBetweenTwoUsers`:
`done` is the already-processed prefix of the aggregation entries and
`acc` the accumulator.  (1) accumulator entries come from the processed
prefix; (2) two distinct accumulator slots never hold the same or the
swapped directed key; (3) every processed entry is represented in the
accumulator by its own or its swapped key; (4) an accumulator entry is
latest among all processed entries of its unordered pair. -/
def MergeInv (done acc : List Msg) : Prop :=
  (∀ e ∈ acc, e ∈ done)
  ∧ (∀ (i j : Nat) (hi : i < acc.length) (hj : j < acc.length), i ≠ j →
      dirKey acc[i] ≠ dirKey acc[j] ∧ dirKey acc[i] ≠ (dirKey acc[j]).swap)
  ∧ (∀ m ∈ done, ∃ e ∈ acc, dirKey e = dirKey m ∨ dirKey e = (dirKey m).swap)
  ∧ (∀ e ∈ acc, ∀ m ∈ done,
      (dirKey m = dirKey e ∨ dirKey m = (dirKey e).swap) → m.sent ≤ e.sent)

/-- Empty message store. -/
def mstEmpty : MSt := ⟨[], 0, 10⟩

/-- Message store for the aggregation example: user `1` talked with users
`2` and `3`; the latest message with `2` (sent `20`) goes from `2` to `1`,
the only message with `3` (sent `5`) goes from `1` to `3`. -/
def msgStoreEx : List Msg :=
  [⟨0, some "a", 1, 2, 10, 1, [], false⟩,
   ⟨1, some "b", 2, 1, 20, 2, [], false⟩,
   ⟨2, some "c", 1, 3, 5, 1, [], false⟩]

/-! Shared helper lemmas. -/

/-- Pair-uniqueness store invariant of the demand collection: no two
distinct documents are simultaneously non-cancelled for the same
`(sender, receiver)` pair. -/
def PairUnique (l : List Demand) : Prop :=
  l.Pairwise (fun x y =>
    x.cancelled = false → y.cancelled = false →
      ¬(x.sender = y.sender ∧ x.receiver = y.receiver))

theorem pairUnique_symm :
    Symmetric (fun x y : Demand =>
      x.cancelled = false → y.cancelled = false →
        ¬(x.sender = y.sender ∧ x.receiver = y.receiver)) := by
  intro x y h hy hx hc
  exact h hx hy ⟨hc.1.symm, hc.2.symm⟩

theorem getUser_updateUserById (us : List (Nat × UserR)) (i j : Nat)
    (f : UserR → UserR) :
    (getUser (updateUserById us j f) i).isSome = (getUser us i).isSome := by
  induction us with
  | nil => rfl
  | cons p rest ih =>
    by_cases h : p.1 == j <;> by_cases h2 : p.1 == i <;>
      simp [updateUserById, getUser, List.find?, h, h2] at * <;>
      simpa [updateUserById, getUser] using ih

theorem findOneAndUpdateD_length (l : List Demand) (i : Nat) (f : Demand → Demand) :
    (findOneAndUpdateD l i f).length = l.length := by
  induction l with
  | nil => rfl
  | cons d rest ih =>
    by_cases h : d.id == i <;> simp [findOneAndUpdateD, h, ih]

theorem mem_findOneAndUpdateD_of_ne (l : List Demand) (i : Nat)
    (f : Demand → Demand) (d' : Demand) (hm : d' ∈ l) (hne : d'.id ≠ i) :
    d' ∈ findOneAndUpdateD l i f := by
  induction l with
  | nil => simp at hm
  | cons d rest ih =>
    rcases List.mem_cons.mp hm with h1 | h1
    · subst h1
      have h : (d'.id == i) = false := beq_eq_false_iff_ne.mpr hne
      rw [findOneAndUpdateD, h]
      exact List.mem_cons_self _ _
    · by_cases h : d.id == i
      · rw [findOneAndUpdateD, if_pos h]
        exact List.mem_cons_of_mem _ h1
      · rw [findOneAndUpdateD, if_neg h]
        exact List.mem_cons_of_mem _ (ih h1)

theorem pairMsg_swap (a b : Nat) : pairMsg b a = pairMsg a b :=
  funext fun m => Bool.or_comm _ _

theorem foldl_pickLater_some (l : List Msg) :
    ∀ (acc : Option Msg) (m : Msg), l.foldl pickLater acc = some m →
      acc = some m ∨ m ∈ l := by
  induction l with
  | nil => intro acc m h; exact Or.inl h
  | cons x rest ih =>
    intro acc m h
    rcases ih (pickLater acc x) m h with h1 | h1
    · rcases acc with _ | m'
      · exact Or.inr (List.mem_cons.mpr (Or.inl (Option.some.inj h1).symm))
      · by_cases hlt : m'.sent < x.sent
        · rw [pickLater, if_pos hlt] at h1
          exact Or.inr (List.mem_cons.mpr (Or.inl (Option.some.inj h1).symm))
        · rw [pickLater, if_neg hlt] at h1
          exact Or.inl h1
    · exact Or.inr (List.mem_cons_of_mem _ h1)

theorem latestIn_of_sorted (l : List Msg)
    (hsort : (l.map (·.sent)).Pairwise (· < ·)) :
    latestIn l = l.getLast? := by
  induction l using List.reverseRecOn with
  | nil => rfl
  | append_singleton l' m ih =>
    rw [List.map_append, List.pairwise_append] at hsort
    have hlast : ∀ x ∈ l', x.sent < m.sent := by
      intro x hx
      exact hsort.2.2 x.sent (List.mem_map_of_mem _ hx) m.sent (by simp)
    rw [latestIn, List.foldl_append]
    rcases hacc : List.foldl pickLater none l' with _ | m'
    · simp [List.foldl, pickLater]
    · have hm' : m' ∈ l' := by
        rcases foldl_pickLater_some l' none m' hacc with h | h
        · exact absurd h (by simp)
        · exact h
      simp only [List.foldl, pickLater, if_pos (hlast m' hm'), List.getLast?_append]
      rfl

theorem foldl_max_range' (k : Nat) : List.foldl max 0 (List.range' 1 k) = k := by
  induction k with
  | zero => rfl
  | succ j ih =>
    rw [List.range'_concat, List.foldl_append, ih]
    simp [Nat.max_eq_right]
    omega

theorem sendMessage_goodPair_step (st : MSt) (a b s r : Nat)
    (c : Option String) (f : Option (List String)) (k : Nat)
    (hdir : (s = a ∧ r = b) ∨ (s = b ∧ r = a))
    (hgood : GoodPair a b st k) :
    (sendMessage st s r c f).2.2.indexMessage = k + 1 ∧
    GoodPair a b (sendMessage st s r c f).2.1 (k + 1) := by
  obtain ⟨hidx, hsort, hlt⟩ := hgood
  have hpairf : pairMsg s r = pairMsg a b := by
    rcases hdir with ⟨hs, hr⟩ | ⟨hs, hr⟩
    · rw [hs, hr]
    · rw [hs, hr]; exact pairMsg_swap a b
  have hlast : latestPairMessage st.messages s r
      = (st.messages.filter (pairMsg a b)).getLast? := by
    rw [latestPairMessage, hpairf]
    exact latestIn_of_sorted _ hsort
  have hnewidx : (sendMessage st s r c f).2.2.indexMessage = k + 1 := by
    rcases k with _ | j
    · have hnil : st.messages.filter (pairMsg a b) = [] :=
        List.map_eq_nil_iff.mp hidx
      simp [sendMessage, hlast, hnil]
    · have hne : st.messages.filter (pairMsg a b) ≠ [] := by
        intro hnil
        rw [hnil] at hidx
        exact absurd hidx.symm (by simp [List.range'_concat])
      obtain ⟨last, hlast2⟩ := Option.ne_none_iff_exists'.mp
        (mt List.getLast?_eq_none_iff.mp hne)
      have hlidx : last.indexMessage = j + 1 := by
        have h1 : ((st.messages.filter (pairMsg a b)).map
            (·.indexMessage)).getLast? = some (j + 1) := by
          rw [hidx, List.range'_concat]
          simp
          omega
        rw [List.getLast?_map, hlast2] at h1
        exact Option.some.inj h1
      simp [sendMessage, hlast, hlast2, hlidx]
  refine ⟨hnewidx, ?_, ?_, ?_⟩
  all_goals
    have hmsgpair : pairMsg a b (sendMessage st s r c f).2.2 = true := by
      rcases hdir with ⟨hs, hr⟩ | ⟨hs, hr⟩ <;>
        simp [sendMessage, pairMsg, hs, hr]
  all_goals
    have hmsgs : (sendMessage st s r c f).2.1.messages.filter (pairMsg a b)
        = st.messages.filter (pairMsg a b) ++ [(sendMessage st s r c f).2.2] := by
      conv_lhs => rw [show (sendMessage st s r c f).2.1.messages
        = st.messages ++ [(sendMessage st s r c f).2.2] from rfl]
      rw [List.filter_append]
      simp [hmsgpair]
  · rw [hmsgs, List.map_append, hidx, List.map_singleton, hnewidx,
      List.range'_concat]
    simp [Nat.add_comm]
  · rw [hmsgs, List.map_append, List.pairwise_append]
    refine ⟨hsort, by simp, ?_⟩
    intro x hx y hy
    simp only [List.map_singleton, List.mem_singleton] at hy
    subst hy
    obtain ⟨mx, hmx, hmxe⟩ := List.mem_map.mp hx
    have := hlt mx hmx
    have hsent : (sendMessage st s r c f).2.2.sent = st.now := rfl
    omega
  · intro m hm
    rw [hmsgs] at hm
    have hnow : (sendMessage st s r c f).2.1.now = st.now + 1 := rfl
    rcases List.mem_append.mp hm with h | h
    · have := hlt m h
      omega
    · have : m = (sendMessage st s r c f).2.2 := by simpa using h
      subst this
      have hsent : (sendMessage st s r c f).2.2.sent = st.now := rfl
      omega

theorem runSends_goodPair (a b : Nat) (dirs : List Bool) :
    ∀ (st : MSt) (k : Nat), GoodPair a b st k →
      GoodPair a b (runSends st a b dirs) (k + dirs.length) := by
  induction dirs with
  | nil => intro st k h; simpa [runSends] using h
  | cons d rest ih =>
    intro st k h
    have hstep := sendMessage_goodPair_step st a b (if d then a else b)
      (if d then b else a) (some "Hello") none k
      (by rcases d with _ | _ <;> simp) h
    have hrun : runSends st a b (d :: rest)
        = runSends ((sendMessage st (if d then a else b) (if d then b else a)
            (some "Hello") none).2.1) a b rest := rfl
    rw [hrun]
    have := ih _ (k + 1) hstep.2
    simpa [Nat.add_assoc, Nat.add_comm 1 rest.length] using this

theorem foldl_pickLater_ge (l : List Msg) :
    ∀ (acc : Option Msg) (m : Msg), l.foldl pickLater acc = some m →
      (∀ x ∈ l, x.sent ≤ m.sent) ∧ (∀ m0, acc = some m0 → m0.sent ≤ m.sent) := by
  induction l with
  | nil =>
    intro acc m h
    refine ⟨by simp, ?_⟩
    intro m0 h0
    rw [h0] at h
    rw [Option.some.inj h]
  | cons x rest ih =>
    intro acc m h
    obtain ⟨hrest, hacc⟩ := ih (pickLater acc x) m h
    have hx : x.sent ≤ m.sent := by
      rcases acc with _ | m'
      · exact hacc x rfl
      · by_cases hlt : m'.sent < x.sent
        · exact hacc x (by rw [pickLater, if_pos hlt])
        · exact le_trans (Nat.le_of_not_lt hlt)
            (hacc m' (by rw [pickLater, if_neg hlt]))
    refine ⟨?_, ?_⟩
    · intro y hy
      rcases List.mem_cons.mp hy with h1 | h1
      · rw [h1]; exact hx
      · exact hrest y h1
    · intro m0 h0
      subst h0
      by_cases hlt : m0.sent < x.sent
      · exact le_trans (Nat.le_of_lt hlt) hx
      · exact hacc m0 (by rw [pickLater, if_neg hlt])

theorem latestIn_mem (l : List Msg) (m : Msg) (h : latestIn l = some m) :
    m ∈ l := by
  rcases foldl_pickLater_some l none m h with h1 | h1
  · exact absurd h1 (by simp)
  · exact h1

theorem latestIn_ge (l : List Msg) (m : Msg) (h : latestIn l = some m) :
    ∀ x ∈ l, x.sent ≤ m.sent :=
  (foldl_pickLater_ge l none m h).1

theorem foldl_pickLater_isSome (l : List Msg) :
    ∀ (m0 : Msg), (l.foldl pickLater (some m0)).isSome = true := by
  induction l with
  | nil => intro m0; rfl
  | cons x rest ih =>
    intro m0
    rw [List.foldl_cons]
    by_cases hlt : m0.sent < x.sent
    · rw [pickLater, if_pos hlt]; exact ih x
    · rw [pickLater, if_neg hlt]; exact ih m0

theorem latestIn_isSome (l : List Msg) (h : l ≠ []) :
    (latestIn l).isSome = true := by
  rcases l with _ | ⟨x, rest⟩
  · exact absurd rfl h
  · rw [latestIn, List.foldl_cons]
    exact foldl_pickLater_isSome rest x

theorem latestIn_filter_key (ms : List Msg) (p : Nat × Nat) (e : Msg)
    (h : latestIn (ms.filter (fun m => dirKey m == p)) = some e) :
    dirKey e = p := by
  have hmem := latestIn_mem _ _ h
  have := (List.mem_filter.mp hmem).2
  simpa using this

theorem lastAggrEntries_spec (ms : List Msg) (e : Msg)
    (h : e ∈ lastAggrEntries ms) :
    e ∈ ms ∧ ∀ m ∈ ms, dirKey m = dirKey e → m.sent ≤ e.sent := by
  obtain ⟨p, hp, he⟩ := List.mem_filterMap.mp h
  have hmem := latestIn_mem _ _ he
  have hf := List.mem_filter.mp hmem
  refine ⟨hf.1, ?_⟩
  intro m hm hk
  apply latestIn_ge _ _ he
  refine List.mem_filter.mpr ⟨hm, ?_⟩
  rw [show dirKey e = p from by simpa using hf.2] at hk
  simpa using hk

theorem filterMap_latest_keys (ms : List Msg) (ps : List (Nat × Nat))
    (hnd : ps.Nodup) :
    (ps.filterMap (fun p => latestIn (ms.filter (fun m => dirKey m == p)))).Pairwise
      (fun x y => dirKey x ≠ dirKey y) := by
  induction ps with
  | nil => simp
  | cons p rest ih =>
    rw [List.filterMap_cons]
    have hnd' := List.nodup_cons.mp hnd
    rcases hfp : latestIn (ms.filter (fun m => dirKey m == p)) with _ | e
    · exact ih hnd'.2
    · refine List.Pairwise.cons ?_ (ih hnd'.2)
      intro e' he'
      obtain ⟨p', hp', he2⟩ := List.mem_filterMap.mp he'
      rw [latestIn_filter_key _ _ _ hfp, latestIn_filter_key _ _ _ he2]
      intro hpp
      exact hnd'.1 (hpp ▸ hp')

theorem lastAggrEntries_keys (ms : List Msg) :
    (lastAggrEntries ms).Pairwise (fun x y => dirKey x ≠ dirKey y) :=
  filterMap_latest_keys ms _ (List.nodup_dedup _)

theorem lastAggrEntries_cover (ms : List Msg) (m : Msg) (hm : m ∈ ms) :
    ∃ e ∈ lastAggrEntries ms, dirKey e = dirKey m := by
  have hp : dirKey m ∈ (ms.map dirKey).dedup :=
    List.mem_dedup.mpr (List.mem_map_of_mem _ hm)
  have hne : ms.filter (fun x => dirKey x == dirKey m) ≠ [] := by
    intro h0
    have hmm : m ∈ ms.filter (fun x => dirKey x == dirKey m) :=
      List.mem_filter.mpr ⟨hm, by simp⟩
    rw [h0] at hmm
    exact absurd hmm (List.not_mem_nil m)
  obtain ⟨e, he⟩ := Option.isSome_iff_exists.mp (latestIn_isSome _ hne)
  exact ⟨e, List.mem_filterMap.mpr ⟨dirKey m, hp, he⟩,
    latestIn_filter_key _ _ _ he⟩

theorem dirKey_swap_comm {p q : Nat × Nat} (h : p = q.swap) : q = p.swap := by
  rw [h, Prod.swap_swap]

theorem mergePred_iff (e m : Msg) :
    ((e.sender == m.receiver && e.receiver == m.sender) = true) ↔
      dirKey e = (dirKey m).swap := by
  simp [dirKey, Prod.ext_iff]

theorem findIdx?_some_spec (p : Msg → Bool) (l : List Msg) (i : Nat)
    (h : l.findIdx? p = some i) : ∃ hi : i < l.length, p l[i] = true := by
  rw [List.findIdx?_eq_some_iff_findIdx_eq] at h
  obtain ⟨hlt, hidx⟩ := h
  subst hidx
  exact ⟨hlt, List.findIdx_getElem⟩

theorem mergeStep_of_none (acc : List Msg) (msg : Msg)
    (hf : acc.findIdx?
      (fun el => el.sender == msg.receiver && el.receiver == msg.sender) = none) :
    mergeStep acc msg = acc ++ [msg] := by
  rw [mergeStep, hf]

theorem mergeStep_of_some (acc : List Msg) (msg : Msg) (i : Nat)
    (hf : acc.findIdx?
      (fun el => el.sender == msg.receiver && el.receiver == msg.sender) = some i)
    (hi : i < acc.length) :
    mergeStep acc msg =
      if acc[i].sent < msg.sent then acc.set i msg else acc := by
  simp only [mergeStep, hf, List.getElem?_eq_getElem hi]

theorem mergeStep_inv (done acc : List Msg) (msg : Msg)
    (hinv : MergeInv done acc)
    (hfresh : ∀ e ∈ done, dirKey e ≠ dirKey msg) :
    MergeInv (done ++ [msg]) (mergeStep acc msg) := by
  obtain ⟨J1, J2, J3, J4⟩ := hinv
  rcases hf : acc.findIdx?
      (fun el => el.sender == msg.receiver && el.receiver == msg.sender) with _ | i
  · -- no swapped entry yet: the message is pushed
    have hnone : ∀ x ∈ acc, dirKey x ≠ (dirKey msg).swap := by
      intro x hx hk
      have h1 := List.findIdx?_eq_none_iff.mp hf x hx
      have h2 := (mergePred_iff x msg).mpr hk
      rw [h1] at h2
      exact Bool.false_ne_true h2
    rw [mergeStep_of_none acc msg hf]
    refine ⟨?_, ?_, ?_, ?_⟩
    · intro e he
      rcases List.mem_append.mp he with h | h
      · exact List.mem_append_left _ (J1 e h)
      · exact List.mem_append_right _ h
    · intro i j hi hj hij
      rw [List.length_append, List.length_singleton] at hi hj
      by_cases hi' : i < acc.length
      · have ei : (acc ++ [msg])[i] = acc[i] := List.getElem_append_left hi'
        by_cases hj' : j < acc.length
        · have ej : (acc ++ [msg])[j] = acc[j] := List.getElem_append_left hj'
          rw [ei, ej]
          exact J2 i j hi' hj' hij
        · have hjl : j = acc.length := by omega
          have ej : (acc ++ [msg])[j] = msg :=
            List.getElem_concat_length acc msg j hjl _
          rw [ei, ej]
          exact ⟨hfresh acc[i] (J1 _ (List.getElem_mem hi')),
            hnone acc[i] (List.getElem_mem hi')⟩
      · have hil : i = acc.length := by omega
        have ei : (acc ++ [msg])[i] = msg :=
          List.getElem_concat_length acc msg i hil _
        have hj' : j < acc.length := by omega
        have ej : (acc ++ [msg])[j] = acc[j] := List.getElem_append_left hj'
        rw [ei, ej]
        constructor
        · exact (hfresh acc[j] (J1 _ (List.getElem_mem hj'))).symm
        · intro hk
          exact hnone acc[j] (List.getElem_mem hj') (dirKey_swap_comm hk)
    · intro m hm
      rcases List.mem_append.mp hm with h | h
      · obtain ⟨e, he, hk⟩ := J3 m h
        exact ⟨e, List.mem_append_left _ he, hk⟩
      · have hmm : msg = m := (List.mem_singleton.mp h).symm
        subst hmm
        exact ⟨msg, List.mem_append_right _ (by simp), Or.inl rfl⟩
    · intro e he m hm hk
      rcases List.mem_append.mp he with he1 | he1
      · rcases List.mem_append.mp hm with hm1 | hm1
        · exact J4 e he1 m hm1 hk
        · have hmm : msg = m := (List.mem_singleton.mp hm1).symm
          subst hmm
          rcases hk with hk | hk
          · exact absurd hk.symm (hfresh e (J1 e he1))
          · exact absurd (dirKey_swap_comm hk) (hnone e he1)
      · have hee : msg = e := (List.mem_singleton.mp he1).symm
        subst hee
        rcases List.mem_append.mp hm with hm1 | hm1
        · rcases hk with hk | hk
          · exact absurd hk (hfresh m hm1)
          · obtain ⟨e0, he0, hk0⟩ := J3 m hm1
            rcases hk0 with hk0 | hk0
            · rw [hk] at hk0
              exact absurd hk0 (hnone e0 he0)
            · rw [hk, Prod.swap_swap] at hk0
              exact absurd hk0 (hfresh e0 (J1 e0 he0))
        · have hmm : msg = m := (List.mem_singleton.mp hm1).symm
          subst hmm
          exact le_refl _
  · -- a swapped entry sits at slot i
    obtain ⟨hi, hpred⟩ := findIdx?_some_spec _ _ _ hf
    have hkey : dirKey acc[i] = (dirKey msg).swap := (mergePred_iff _ _).mp hpred
    rw [mergeStep_of_some acc msg i hf hi]
    by_cases hlt : acc[i].sent < msg.sent
    · rw [if_pos hlt]
      refine ⟨?_, ?_, ?_, ?_⟩
      · intro e he
        rcases List.mem_or_eq_of_mem_set he with h | h
        · exact List.mem_append_left _ (J1 e h)
        · subst h
          exact List.mem_append_right _ (by simp)
      · intro j k hj hk hjk
        rw [List.length_set] at hj hk
        have hj2 : j < (acc.set i msg).length := by rw [List.length_set]; exact hj
        have hk2 : k < (acc.set i msg).length := by rw [List.length_set]; exact hk
        have ej : (acc.set i msg)[j] = if i = j then msg else acc[j] :=
          List.getElem_set hj2
        have ek : (acc.set i msg)[k] = if i = k then msg else acc[k] :=
          List.getElem_set hk2
        by_cases hij : i = j
        · have hik : ¬(i = k) := fun h => hjk (hij.symm.trans h)
          rw [ej, ek, if_pos hij, if_neg hik]
          constructor
          · exact (hfresh acc[k] (J1 _ (List.getElem_mem hk))).symm
          · intro h2
            have h3 : dirKey acc[k] = dirKey acc[i] := by
              rw [dirKey_swap_comm h2, ← hkey]
            exact (J2 k i hk hi (fun h => hik h.symm)).1 h3
        · by_cases hik : i = k
          · rw [ej, ek, if_neg hij, if_pos hik]
            constructor
            · exact hfresh acc[j] (J1 _ (List.getElem_mem hj))
            · intro h2
              have h3 : dirKey acc[j] = dirKey acc[i] := by rw [h2, ← hkey]
              exact (J2 j i hj hi (fun h => hij h.symm)).1 h3
          · rw [ej, ek, if_neg hij, if_neg hik]
            exact J2 j k hj hk hjk
      · intro m hm
        have hmsgmem : msg ∈ acc.set i msg := by
          have h0 : i < (acc.set i msg).length := by rw [List.length_set]; exact hi
          have h1 : (acc.set i msg)[i] = msg := by
            rw [List.getElem_set, if_pos rfl]
          have h2 := List.getElem_mem h0
          rwa [h1] at h2
        rcases List.mem_append.mp hm with hm1 | hm1
        · obtain ⟨e0, he0, hk0⟩ := J3 m hm1
          obtain ⟨j, hj, hje⟩ := List.mem_iff_getElem.mp he0
          by_cases hji : j = i
          · subst hji
            rcases hk0 with hk0 | hk0
            · refine ⟨msg, hmsgmem, Or.inr ?_⟩
              rw [← hk0, ← hje]
              exact dirKey_swap_comm hkey
            · refine ⟨msg, hmsgmem, Or.inl ?_⟩
              have h2 : (dirKey m).swap = (dirKey msg).swap := by
                rw [← hk0, ← hje, hkey]
              have h3 := congrArg Prod.swap h2
              rw [Prod.swap_swap, Prod.swap_swap] at h3
              exact h3.symm
          · refine ⟨e0, ?_, hk0⟩
            have hj2 : j < (acc.set i msg).length := by
              rw [List.length_set]; exact hj
            have h1 : (acc.set i msg)[j] = acc[j] := by
              rw [List.getElem_set, if_neg (fun h => hji h.symm)]
            have h2 := List.getElem_mem hj2
            rwa [h1, hje] at h2
        · have hmm : msg = m := (List.mem_singleton.mp hm1).symm
          subst hmm
          exact ⟨msg, hmsgmem, Or.inl rfl⟩
      · intro e he m hm hk
        obtain ⟨j, hj, hje⟩ := List.mem_iff_getElem.mp he
        have hj' : j < acc.length := by rw [List.length_set] at hj; exact hj
        by_cases hji : i = j
        · have he2 : msg = e := by
            rw [← hje, List.getElem_set, if_pos hji]
          subst he2
          rcases List.mem_append.mp hm with hm1 | hm1
          · rcases hk with hk | hk
            · exact absurd hk (hfresh m hm1)
            · have hmk : dirKey m = dirKey acc[i] := by rw [hk, ← hkey]
              have h2 := J4 acc[i] (List.getElem_mem hi) m hm1 (Or.inl hmk)
              exact le_trans h2 (Nat.le_of_lt hlt)
          · have hmm : msg = m := (List.mem_singleton.mp hm1).symm
            subst hmm
            exact le_refl _
        · have he2 : e = acc[j] := by
            rw [← hje, List.getElem_set, if_neg hji]
          rcases List.mem_append.mp hm with hm1 | hm1
          · refine J4 e ?_ m hm1 hk
            rw [he2]
            exact List.getElem_mem hj'
          · have hmm : msg = m := (List.mem_singleton.mp hm1).symm
            subst hmm
            rw [he2] at hk
            rcases hk with hk | hk
            · exact absurd hk.symm (hfresh acc[j] (J1 _ (List.getElem_mem hj')))
            · have h2 : dirKey acc[j] = dirKey acc[i] := by
                rw [dirKey_swap_comm hk, ← hkey]
              exact absurd h2 (J2 j i hj' hi (fun h => hji h.symm)).1
    · rw [if_neg hlt]
      have hle : msg.sent ≤ acc[i].sent := Nat.le_of_not_lt hlt
      refine ⟨?_, ?_, ?_, ?_⟩
      · intro e he
        exact List.mem_append_left _ (J1 e he)
      · exact J2
      · intro m hm
        rcases List.mem_append.mp hm with hm1 | hm1
        · exact J3 m hm1
        · have hmm : msg = m := (List.mem_singleton.mp hm1).symm
          subst hmm
          exact ⟨acc[i], List.getElem_mem hi, Or.inr hkey⟩
      · intro e he m hm hk
        rcases List.mem_append.mp hm with hm1 | hm1
        · exact J4 e he m hm1 hk
        · have hmm : msg = m := (List.mem_singleton.mp hm1).symm
          subst hmm
          obtain ⟨j, hj, hje⟩ := List.mem_iff_getElem.mp he
          rcases hk with hk | hk
          · rw [← hje] at hk
            exact absurd hk.symm (hfresh acc[j] (J1 _ (List.getElem_mem hj)))
          · rw [← hje] at hk
            by_cases hji : j = i
            · subst hji
              rw [← hje]
              exact hle
            · have h2 : dirKey acc[j] = dirKey acc[i] := by
                rw [dirKey_swap_comm hk, ← hkey]
              exact absurd h2 (J2 j i hj hi hji).1

theorem foldl_mergeStep_inv (es : List Msg) :
    ∀ (done acc : List Msg),
      (done ++ es).Pairwise (fun x y => dirKey x ≠ dirKey y) →
      MergeInv done acc →
      MergeInv (done ++ es) (es.foldl mergeStep acc) := by
  induction es with
  | nil =>
    intro done acc _ h
    simpa using h
  | cons msg rest ih =>
    intro done acc hpw hinv
    have hfresh : ∀ e ∈ done, dirKey e ≠ dirKey msg := by
      have h2 := (List.pairwise_append.mp hpw).2.2
      intro e he
      exact h2 e he msg (List.mem_cons_self _ _)
    have hstep := mergeStep_inv done acc msg hinv hfresh
    have heq : done ++ msg :: rest = (done ++ [msg]) ++ rest := by simp
    rw [heq] at hpw ⊢
    rw [List.foldl_cons]
    exact ih (done ++ [msg]) (mergeStep acc msg) hpw hstep

theorem mergeInv_final (es : List Msg)
    (hpw : es.Pairwise (fun x y => dirKey x ≠ dirKey y)) :
    MergeInv es (getLastMessagesBetweenTwoUsers es) := by
  have h0 : MergeInv [] [] := by
    refine ⟨by simp, ?_, by simp, by simp⟩
    intro i j hi
    exact absurd hi (by simp)
  have h1 := foldl_mergeStep_inv es [] [] (by simpa using hpw) h0
  simpa [getLastMessagesBetweenTwoUsers] using h1

theorem key_iff_counterpart (u : Nat) (e m : Msg)
    (he : involves u e = true) (hm : involves u m = true) :
    (dirKey m = dirKey e ∨ dirKey m = (dirKey e).swap) ↔
      counterpart u m = counterpart u e := by
  simp only [involves, Bool.or_eq_true, beq_iff_eq] at he hm
  by_cases hms : m.sender = u <;> by_cases hes : e.sender = u <;>
    simp [counterpart, dirKey, hms, hes, Prod.ext_iff] <;>
    omega

/-! Claim theorems. -/

/-- C1: the claim says that after any sequence of accept operations every
student with a supervisor appears in that supervisor's `supervised` set.
The code violates this: because `supervised` is `select: false`, the
`User.findById(receiver)` of `acceptDemand` loads it as undefined and
every accept writes the singleton `[sender]` over the teacher's stored
list.  With students `0` and `2` both pending towards teacher `1`:
accepting demand `0` sets `supervised = [0]`, then accepting demand `1`
wipes it to `[2]`, while student `0` still has `supervisor = 1` — so
student `0` is no longer in its supervisor's `supervised` set. -/
theorem second_accept_wipes_supervised :
    ((getUser (runAccepts stTwoStudents [(1, 0)]).users 1).map (·.supervised)
      = some [0]) ∧
    ((getUser (runAccepts stTwoStudents [(1, 0), (1, 1)]).users 1).map
      (·.supervised) = some [2]) ∧
    ((getUser (runAccepts stTwoStudents [(1, 0), (1, 1)]).users 0).map
      (·.supervisor) = some (some 1)) :=
  ⟨rfl, rfl, rfl⟩

/-- C2 counterexample: the claim says repeating a terminal transition
fails with an invalid-state error; in the code, accepting an
already-accepted demand and cancelling (as receiver) an already-cancelled
demand both succeed silently. -/
theorem terminal_repeat_silently_succeeds :
    (acceptDemand stAccepted 1 0).isOk = true ∧
    (cancelDemand stCancelled 1 0).isOk = true :=
  ⟨rfl, rfl⟩

/-- C2 amended: only the cross-state repetitions fail — accept on an
already-cancelled demand errors with the 400 invalid-state message and
cancel on an already-accepted demand errors with the 400 invalid-state
message — while accept on an already-accepted demand and cancel (by the
receiver) on an already-cancelled demand silently succeed. -/
theorem terminal_transition_behavior :
    (∀ (st : DSt) (a i : Nat) (d : Demand),
      st.demands.find? (fun x => x.id == i) = some d → d.receiver = a →
      d.cancelled = true →
      acceptDemand st a i
        = .error ⟨"You can't accept demands that were cancelled.", 400⟩)
    ∧ (∀ (st : DSt) (a i : Nat) (d : Demand),
      st.demands.find? (fun x => x.id == i) = some d → d.receiver = a →
      d.accepted = true →
      cancelDemand st a i
        = .error ⟨"You can't cancel demands that were accepted.", 400⟩)
    ∧ (∀ (st : DSt) (a i : Nat) (d : Demand),
      st.demands.find? (fun x => x.id == i) = some d → d.receiver = a →
      d.accepted = true → d.cancelled = false →
      (getUser st.users d.receiver).isSome = true →
      (acceptDemand st a i).isOk = true)
    ∧ (∀ (st : DSt) (a i : Nat) (d : Demand),
      st.demands.find? (fun x => x.id == i) = some d → d.receiver = a →
      d.accepted = false → d.cancelled = true →
      (cancelDemand st a i).isOk = true) := by
  refine ⟨?_, ?_, ?_, ?_⟩
  · intro st a i d hfind hrecv hcanc
    simp [acceptDemand, hfind, hrecv, hcanc]
  · intro st a i d hfind hrecv hacc
    simp [cancelDemand, hfind, hrecv, hacc]
  · intro st a i d hfind hrecv hacc hcanc husr
    subst hrecv
    have h1 : (getUser (updateUserById st.users d.sender
        (fun u => { u with supervisor := some d.receiver })) d.receiver).isSome
          = true := by
      rw [getUser_updateUserById]; exact husr
    obtain ⟨u, hu⟩ := Option.isSome_iff_exists.mp h1
    simp [acceptDemand, hfind, hcanc, hu]
    rfl
  · intro st a i d hfind hrecv hacc hcanc
    simp [cancelDemand, hfind, hrecv, hacc]
    rfl

/-- C2 amended, witness: the four cases of the amended statement at the
concrete one-demand states. -/
theorem terminal_transition_behavior_witness :
    acceptDemand stCancelled 1 0
      = .error ⟨"You can't accept demands that were cancelled.", 400⟩ ∧
    cancelDemand stAccepted 1 0
      = .error ⟨"You can't cancel demands that were accepted.", 400⟩ ∧
    (acceptDemand stAccepted 1 0).isOk = true ∧
    (cancelDemand stCancelled 1 0).isOk = true :=
  ⟨terminal_transition_behavior.1 stCancelled 1 0 _ rfl rfl rfl,
   terminal_transition_behavior.2.1 stAccepted 1 0 _ rfl rfl rfl,
   terminal_transition_behavior.2.2.1 stAccepted 1 0 _ rfl rfl rfl rfl rfl,
   terminal_transition_behavior.2.2.2 stCancelled 1 0 _ rfl rfl rfl rfl⟩

/-- C3: the claim says the sender of a non-accepted demand may cancel it.
In the code both branches of the actor test error with 403, so the sender
of pending demand `0` is rejected with the 403 message while the receiver
succeeds — only the receiver can ever cancel. -/
theorem sender_cancel_forbidden :
    cancelDemand stPending 0 0
      = .error ⟨"You can't cancel demands that weren't sent to you.", 403⟩ ∧
    (cancelDemand stPending 1 0).isOk = true ∧
    cancelDemand stPending 2 0
      = .error ⟨"You can't cancel demands that you didn't sent.", 403⟩ :=
  ⟨rfl, rfl, rfl⟩

/-- C6: the claim says a `sendMessage` call with no files and empty
content fails with a validation error and persists nothing.  The code
raises the 400 error but is missing the `return` after `next(...)`, and
`content` is not required by the message schema, so the message document
is persisted anyway: from the empty store, one message is stored. -/
theorem empty_message_still_persisted :
    (sendMessage mstEmpty 1 2 none none).1
      = some ⟨"The content can't be empty.", 400⟩ ∧
    (sendMessage mstEmpty 1 2 none none).2.1.messages.length = 1 ∧
    (sendMessage mstEmpty 1 2 (some "") (some [])).1
      = some ⟨"The content can't be empty.", 400⟩ ∧
    (sendMessage mstEmpty 1 2 (some "") (some [])).2.1.messages.length = 1 :=
  ⟨rfl, rfl, rfl, rfl⟩

/-- C9 counterexample: the claim says the page error fires only when
`skip` is at least the COMBINED-FILTER matching count AND `page > 1`, and
that the query succeeds otherwise.  In the code `paginate` counts the
whole collection and has no `page > 1` guard: `page=1&limit=10` on an
empty collection errors (the claim says it succeeds), and
`page=4&limit=10` on a 40-document collection of which only 25 match the
filter succeeds with an empty page (the claim says it fails). -/
theorem paginate_count_counterexample :
    getAll ([] : List Nat) (fun _ => true) (fun _ => true) (some 1) (some 10)
      = .error ⟨"This page doesn't exist.", 404⟩ ∧
    getAll (List.range 40) (fun _ => true) (fun d => decide (d < 25))
        (some 4) (some 10) = .ok [] := by
  exact ⟨rfl, by rfl⟩

/-- C9 amended: with positive `page` and `limit` supplied, the query
fails with the 404 "This page doesn't exist." error exactly when
`skip = (page-1)*limit` reaches the total size of the WHOLE collection
(ignoring both filters, and also when `page = 1`), and otherwise returns
the `skip`/`limit` slice of the documents matching the caller filter
ANDed with the query filter. -/
theorem getAll_paginate_behavior {α : Type} (docs : List α)
    (cF qF : α → Bool) (p l : Nat) (hp : 1 ≤ p) (hl : 1 ≤ l) :
    (docs.length ≤ (p - 1) * l →
      getAll docs cF qF (some p) (some l)
        = .error ⟨"This page doesn't exist.", 404⟩)
    ∧ ((p - 1) * l < docs.length →
      getAll docs cF qF (some p) (some l)
        = .ok (((docs.filter (fun d => qF d && cF d)).drop ((p - 1) * l)).take l)) := by
  have hp0 : (p == 0) = false := beq_eq_false_iff_ne.mpr (by omega)
  have hl0 : (l == 0) = false := beq_eq_false_iff_ne.mpr (by omega)
  constructor
  · intro hle
    simp [getAll, hp0, hl0, bne, hle]
  · intro hlt
    simp [getAll, hp0, hl0, bne, Nat.not_le.mpr hlt]

/-- C9 amended, witness: 25 documents all matching; page 3 returns
documents 21 to 25 and page 4 fails with the 404 page error. -/
theorem getAll_paginate_behavior_witness :
    getAll (List.range 25) (fun _ => true) (fun _ => true) (some 3) (some 10)
      = .ok [20, 21, 22, 23, 24] ∧
    getAll (List.range 25) (fun _ => true) (fun _ => true) (some 4) (some 10)
      = .error ⟨"This page doesn't exist.", 404⟩ := by
  constructor
  · exact ((getAll_paginate_behavior (List.range 25) (fun _ => true)
      (fun _ => true) 3 10 (by decide) (by decide)).2 (by decide)).trans (by rfl)
  · exact (getAll_paginate_behavior (List.range 25) (fun _ => true)
      (fun _ => true) 4 10 (by decide) (by decide)).1 (by decide)

/-- C10: for any non-student role, `getAllDemands` filters the demand
collection on the path `teacher`, which the teaching-demand schema does
not declare (its participant paths are `sender` and `receiver`), so the
returned list is empty whatever demands the store holds. -/
theorem getAllDemands_nonstudent_empty (demands : List Demand) (id : Nat)
    (role : String) (h : role ≠ "student") :
    getAllDemandsFilterField role = "teacher" ∧
    "teacher" ∉ teachingDemandSchemaFields ∧
    getAllDemands demands id role = [] := by
  have hfield : getAllDemandsFilterField role = "teacher" := by
    simp [getAllDemandsFilterField, h]
  refine ⟨hfield, by decide, ?_⟩
  rw [getAllDemands, hfield]
  exact List.filter_eq_nil_iff.mpr (fun d _ => by simp [demandFieldIs])

/-- C10 witness: a teacher with a stored demand addressed to them still
gets the empty list. -/
theorem getAllDemands_nonstudent_empty_witness :
    getAllDemands [⟨0, 0, 1, 0, false, false⟩] 1 "teacher" = [] :=
  (getAllDemands_nonstudent_empty [⟨0, 0, 1, 0, false, false⟩] 1 "teacher"
    (by decide)).2.2

/-- C4: on a demand store satisfying the pair-uniqueness invariant (at
most one non-cancelled demand per (sender, receiver) pair, the invariant
`sendDemand` maintains), a successful accept of demand `dm` marks every
other pending (non-accepted, non-cancelled) demand of the same sender as
cancelled, whatever its receiver, and the store keeps its size. -/
theorem accept_cascade_cancels_pending (st : DSt) (actor i : Nat)
    (dm : Demand) (st' : DSt)
    (hfind : st.demands.find? (fun x => x.id == i) = some dm)
    (hpair : PairUnique st.demands)
    (hok : acceptDemand st actor i = .ok st') :
    st'.demands.length = st.demands.length ∧
    ∀ d' ∈ st.demands, d'.id ≠ dm.id → d'.sender = dm.sender →
      d'.accepted = false → d'.cancelled = false →
      { d' with cancelled := true } ∈ st'.demands := by
  have hdm_mem : dm ∈ st.demands := List.mem_of_find?_eq_some hfind
  simp only [acceptDemand, hfind] at hok
  by_cases hra : dm.receiver != actor
  · rw [if_pos hra] at hok
    exact absurd hok (by simp)
  rw [if_neg hra] at hok
  by_cases hca : dm.cancelled
  · rw [if_pos hca] at hok
    exact absurd hok (by simp)
  rw [if_neg hca] at hok
  rcases hu : getUser (updateUserById st.users dm.sender
      (fun u => { u with supervisor := some dm.receiver })) dm.receiver with _ | u
  · rw [hu] at hok
    exact absurd hok (by simp)
  rw [hu] at hok
  have hdemands : st'.demands =
      (findOneAndUpdateD st.demands dm.id (fun d => { d with accepted := true })).map
        (fun d => if d.sender == dm.sender && d.receiver != dm.receiver then
          { d with cancelled := true } else d) := by
    have := congrArg DSt.demands (Except.ok.inj hok)
    exact this.symm
  constructor
  · rw [hdemands, List.length_map, findOneAndUpdateD_length]
  · intro d' hmem hid hsend hacc hcanc
    have hdmid : dm.id = i := by
      have := List.find?_some hfind
      simpa using this
    have hrecvne : d'.receiver ≠ dm.receiver := by
      intro hr
      have hne : dm ≠ d' := fun he => hid (by rw [he])
      have hR := List.Pairwise.forall pairUnique_symm hpair hdm_mem hmem hne
      exact hR (by simpa using hca) hcanc ⟨hsend.symm, hr.symm⟩
    have hmem1 : d' ∈ findOneAndUpdateD st.demands dm.id
        (fun d => { d with accepted := true }) :=
      mem_findOneAndUpdateD_of_ne _ _ _ _ hmem (by rw [hdmid] at hid ⊢; exact hid)
    rw [hdemands]
    have hcond : (d'.sender == dm.sender && d'.receiver != dm.receiver) = true := by
      simp [hsend, hrecvne]
    have := List.mem_map_of_mem
      (fun d => if d.sender == dm.sender && d.receiver != dm.receiver then
        { d with cancelled := true } else d) hmem1
    simpa [hcond] using this

/-- C4 witness: student `0` has pending demands to teachers `1` and `2`;
teacher `1` accepts demand `0` and the pending demand `1` towards teacher
`2` comes out cancelled. -/
theorem accept_cascade_cancels_pending_witness :
    acceptDemand stTwoPending 1 0 = .ok stTwoPendingAfter ∧
    ({ id := 1, sender := 0, receiver := 2, sent := 0, accepted := false,
       cancelled := true } : Demand) ∈ stTwoPendingAfter.demands := by
  have h := accept_cascade_cancels_pending stTwoPending 1 0
    ⟨0, 0, 1, 0, false, false⟩ stTwoPendingAfter rfl
    (by constructor <;> simp [PairUnique]) rfl
  exact ⟨rfl, h.2 ⟨1, 0, 2, 0, false, false⟩ (by simp [stTwoPending])
    (by decide) rfl rfl rfl⟩

/-- C5 counterexample: the claim says that with no conflicting demand the
call succeeds by creating and returning a new pending demand.  In the
source the creation path runs `TeachingDemand.create({...}).populate({...})`
where `create` returns a Promise without a `populate` method, so from the
empty store the call persists the pending demand but raises the TypeError
(a 500), never responding with the created demand. -/
theorem sendDemand_creation_crashes :
    (sendDemand stNoDemands 0 1).1
      = ⟨"TeachingDemand.create(...).populate is not a function", 500⟩ ∧
    (sendDemand stNoDemands 0 1).2.demands
      = [⟨0, 0, 1, 0, false, false⟩] :=
  ⟨rfl, rfl⟩

/-- C5 amended: `sendDemand` behavior.  (A) When a non-cancelled demand
for the pair exists (the store satisfying pair-uniqueness, so it is the
one the `findOne` returns), the call fails with the 400 conflict whose
message is "already collaborating" when that demand is accepted and the
pending-request message otherwise, leaving the store untouched.  (B) When
no active demand for the pair exists but the sender has an accepted
demand with any receiver, the call fails with the 400 "multiple mentors"
conflict, store untouched.  (C) Otherwise it persists a fresh pending
demand (accepted and cancelled both false) but raises the 500 TypeError
(`create(...)` has no `populate`), so the created demand is never
returned.  (D) Because the demand is persisted anyway, a second call
right after a creation call fails with the pending-request conflict. -/
theorem sendDemand_behavior :
    (∀ (st : DSt) (s r : Nat) (d : Demand), d ∈ st.demands → d.sender = s →
      d.receiver = r → d.cancelled = false → PairUnique st.demands →
      sendDemand st s r = (⟨if d.accepted then
          "You are already collaborating with this teacher."
        else "There is a pending teaching request sent to this teacher.", 400⟩, st))
    ∧ (∀ (st : DSt) (s r : Nat) (d' : Demand),
      (∀ x ∈ st.demands, x.sender = s → x.receiver = r → x.cancelled = true) →
      d' ∈ st.demands → d'.sender = s → d'.accepted = true →
      sendDemand st s r = (⟨"You can't have multiple mentors.", 400⟩, st))
    ∧ (∀ (st : DSt) (s r : Nat),
      (∀ x ∈ st.demands, x.sender = s → x.receiver = r → x.cancelled = true) →
      (∀ x ∈ st.demands, x.sender = s → x.accepted = false) →
      sendDemand st s r =
        (⟨"TeachingDemand.create(...).populate is not a function", 500⟩,
         { st with demands := st.demands ++ [⟨st.nextId, s, r, st.now, false, false⟩],
                   nextId := st.nextId + 1, now := st.now + 1 }))
    ∧ (∀ (st : DSt) (s r : Nat) (e : AppError) (st' : DSt),
      sendDemand st s r = (e, st') → e.statusCode = 500 →
      sendDemand st' s r =
        (⟨"There is a pending teaching request sent to this teacher.", 400⟩, st')) := by
  refine ⟨?_, ?_, ?_, ?_⟩
  · intro st s r d hmem hs hr hc hpair
    have hsome : (st.demands.find?
        (fun x => x.sender == s && x.receiver == r && x.cancelled == false)).isSome := by
      rw [List.find?_isSome]
      exact ⟨d, hmem, by simp [hs, hr, hc]⟩
    obtain ⟨d0, hfind⟩ := Option.isSome_iff_exists.mp hsome
    have hd0mem : d0 ∈ st.demands := List.mem_of_find?_eq_some hfind
    have hd0p := List.find?_some hfind
    simp only [Bool.and_eq_true, beq_iff_eq] at hd0p
    have hd0 : d0 = d := by
      by_contra hne
      have hR := List.Pairwise.forall pairUnique_symm hpair hd0mem hmem hne
      exact hR hd0p.2 hc ⟨hd0p.1.1.trans hs.symm, hd0p.1.2.trans hr.symm⟩
    subst hd0
    rw [sendDemand, hfind]
  · intro st s r d' hnone hmem hs ha
    have h1 : st.demands.find?
        (fun x => x.sender == s && x.receiver == r && x.cancelled == false) = none := by
      rw [List.find?_eq_none]
      intro x hx
      by_cases hxs : x.sender = s
      · by_cases hxr : x.receiver = r
        · simp [hnone x hx hxs hxr]
        · simp [hxr]
      · simp [hxs]
    have hsome : (st.demands.find?
        (fun x => x.sender == s && x.accepted == true)).isSome := by
      rw [List.find?_isSome]
      exact ⟨d', hmem, by simp [hs, ha]⟩
    obtain ⟨d0, hfind2⟩ := Option.isSome_iff_exists.mp hsome
    rw [sendDemand, h1, hfind2]
  · intro st s r hnone1 hnone2
    have h1 : st.demands.find?
        (fun x => x.sender == s && x.receiver == r && x.cancelled == false) = none := by
      rw [List.find?_eq_none]
      intro x hx
      by_cases hxs : x.sender = s
      · by_cases hxr : x.receiver = r
        · simp [hnone1 x hx hxs hxr]
        · simp [hxr]
      · simp [hxs]
    have h2 : st.demands.find?
        (fun x => x.sender == s && x.accepted == true) = none := by
      rw [List.find?_eq_none]
      intro x hx
      by_cases hxs : x.sender = s
      · simp [hnone2 x hx hxs]
      · simp [hxs]
    rw [sendDemand, h1, h2]
  · intro st s r e st' hres h500
    rcases h1 : st.demands.find?
        (fun x => x.sender == s && x.receiver == r && x.cancelled == false) with _ | x
    swap
    · rw [sendDemand, h1] at hres
      have h400 : (400 : Nat) = e.statusCode :=
        congrArg (fun p => p.1.statusCode) hres
      rw [h500] at h400
      exact absurd h400 (by omega)
    rcases h2 : st.demands.find?
        (fun x => x.sender == s && x.accepted == true) with _ | y
    swap
    · rw [sendDemand, h1, h2] at hres
      have h400 : (400 : Nat) = e.statusCode :=
        congrArg (fun p => p.1.statusCode) hres
      rw [h500] at h400
      exact absurd h400 (by omega)
    rw [sendDemand, h1, h2] at hres
    have hst' : st' = { st with
        demands := st.demands ++ [⟨st.nextId, s, r, st.now, false, false⟩],
        nextId := st.nextId + 1, now := st.now + 1 } :=
      (congrArg Prod.snd hres).symm
    subst hst'
    have hfind : (st.demands ++ [(⟨st.nextId, s, r, st.now, false, false⟩ : Demand)]).find?
        (fun x => x.sender == s && x.receiver == r && x.cancelled == false)
          = some ⟨st.nextId, s, r, st.now, false, false⟩ := by
      rw [List.find?_append, h1]
      simp [List.find?]
    rw [sendDemand, hfind]
    rfl

/-- C5 amended, witness: from the empty demand store, the first
`sendDemand` persists the pending demand and raises the creation
TypeError, and the immediate second call fails with the pending-request
conflict on the persisted demand. -/
theorem sendDemand_behavior_witness :
    sendDemand stNoDemands 0 1
      = (⟨"TeachingDemand.create(...).populate is not a function", 500⟩,
         stNoDemandsAfter) ∧
    sendDemand stNoDemandsAfter 0 1
      = (⟨"There is a pending teaching request sent to this teacher.", 400⟩,
         stNoDemandsAfter) := by
  have hfirst := sendDemand_behavior.2.2.1 stNoDemands 0 1
    (by intro x hx; simp [stNoDemands] at hx) (by intro x hx; simp [stNoDemands] at hx)
  exact ⟨hfirst, sendDemand_behavior.2.2.2 stNoDemands 0 1 _ _ hfirst rfl⟩

/-- C7: starting from a store with no messages between the pair
`{a, b}`, any sequence of `sendMessage` calls between them in either
direction assigns `indexMessage` values exactly `1..N` in creation order
(no gaps, no repeats); moreover every individual call assigns one plus
the highest `indexMessage` already present for the pair, that is `1` when
the pair has no message yet (`maxIndex` of the empty list being `0`). -/
theorem sendMessage_indexes_contiguous (st : MSt) (a b : Nat)
    (dirs : List Bool) (hempty : st.messages.filter (pairMsg a b) = []) :
    (((runSends st a b dirs).messages.filter (pairMsg a b)).map (·.indexMessage)
      = List.range' 1 dirs.length)
    ∧ ∀ pre d post, dirs = pre ++ d :: post →
        (sendMessage (runSends st a b pre) (if d then a else b)
          (if d then b else a) (some "Hello") none).2.2.indexMessage
        = maxIndex ((runSends st a b pre).messages.filter (pairMsg a b)) + 1 := by
  have hgood0 : GoodPair a b st 0 := by
    refine ⟨by rw [hempty]; rfl, by rw [hempty]; exact List.Pairwise.nil, ?_⟩
    intro m hm
    rw [hempty] at hm
    exact absurd hm (List.not_mem_nil m)
  constructor
  · have := runSends_goodPair a b dirs st 0 hgood0
    simpa using this.1
  · intro pre d post hsplit
    have hgoodpre : GoodPair a b (runSends st a b pre) pre.length := by
      have := runSends_goodPair a b pre st 0 hgood0
      simpa using this
    have hstep := sendMessage_goodPair_step (runSends st a b pre) a b
      (if d then a else b) (if d then b else a) (some "Hello") none pre.length
      (by rcases d with _ | _ <;> simp) hgoodpre
    rw [hstep.1]
    have hmax : maxIndex ((runSends st a b pre).messages.filter (pairMsg a b))
        = pre.length := by
      rw [maxIndex, hgoodpre.1]
      exact foldl_max_range' pre.length
    rw [hmax]

/-- C7 witness: three messages alternating direction between users `1`
and `2` from the empty store receive the indexes `[1, 2, 3]`, and the
third call assigns one plus the highest index present before it. -/
theorem sendMessage_indexes_contiguous_witness :
    (((runSends mstEmpty 1 2 [true, false, true]).messages.filter
        (pairMsg 1 2)).map (·.indexMessage) = List.range' 1 3)
    ∧ (sendMessage (runSends mstEmpty 1 2 [true, false]) 1 2
        (some "Hello") none).2.2.indexMessage
      = maxIndex ((runSends mstEmpty 1 2 [true, false]).messages.filter
          (pairMsg 1 2)) + 1 :=
  ⟨(sendMessage_indexes_contiguous mstEmpty 1 2 [true, false, true] rfl).1,
   (sendMessage_indexes_contiguous mstEmpty 1 2 [true, false, true] rfl).2
     [true, false] true [] rfl⟩

/-- C8: the last-message query of a user `u` — the `$match` on `u`, the
`LAST_AGGR_OBJ` directional grouping and the
`getLastMessagesBetweenTwoUsers` merge — returns entries that are stored
messages of `u`; it has an entry for a counterpart exactly when some
stored message of `u` has that counterpart; distinct entries have
distinct counterparts (exactly one entry per counterpart); every entry is
latest among the messages exchanged with its counterpart, and with
pairwise-distinct `sent` stamps it is the unique such maximum, whichever
of the two users sent it. -/
theorem lastMessages_per_counterpart (store : List Msg) (u : Nat)
    (hdistinct : (store.filter (involves u)).Pairwise
      (fun x y => x.sent ≠ y.sent)) :
    (∀ e ∈ getLastMessages store u, e ∈ store.filter (involves u))
    ∧ (∀ c, (∃ m ∈ store.filter (involves u), counterpart u m = c) ↔
        (∃ e ∈ getLastMessages store u, counterpart u e = c))
    ∧ (∀ e1 ∈ getLastMessages store u, ∀ e2 ∈ getLastMessages store u,
        counterpart u e1 = counterpart u e2 → e1 = e2)
    ∧ (∀ e ∈ getLastMessages store u, ∀ m ∈ store.filter (involves u),
        counterpart u m = counterpart u e → m.sent ≤ e.sent)
    ∧ (∀ e ∈ getLastMessages store u, ∀ m ∈ store.filter (involves u),
        counterpart u m = counterpart u e → m ≠ e → m.sent < e.sent) := by
  have hperm : (sortBySentDesc (lastAggrEntries (store.filter (involves u)))).Perm
      (lastAggrEntries (store.filter (involves u))) :=
    List.perm_insertionSort _ _
  have hkeys : (sortBySentDesc (lastAggrEntries (store.filter (involves u)))).Pairwise
      (fun x y => dirKey x ≠ dirKey y) :=
    (hperm.pairwise_iff (fun h => h.symm)).mpr
      (lastAggrEntries_keys (store.filter (involves u)))
  have hesmem : ∀ e ∈ sortBySentDesc (lastAggrEntries (store.filter (involves u))),
      e ∈ store.filter (involves u) ∧
      ∀ m ∈ store.filter (involves u), dirKey m = dirKey e → m.sent ≤ e.sent :=
    fun e he => lastAggrEntries_spec _ e (hperm.mem_iff.mp he)
  have hcover : ∀ m ∈ store.filter (involves u),
      ∃ e ∈ sortBySentDesc (lastAggrEntries (store.filter (involves u))),
        dirKey e = dirKey m := by
    intro m hm
    obtain ⟨e, he, hk⟩ := lastAggrEntries_cover _ m hm
    exact ⟨e, hperm.mem_iff.mpr he, hk⟩
  obtain ⟨J1, J2, J3, J4⟩ := mergeInv_final _ hkeys
  have hApi : getLastMessages store u
      = getLastMessagesBetweenTwoUsers
          (sortBySentDesc (lastAggrEntries (store.filter (involves u)))) := rfl
  rw [hApi]
  have hRmem : ∀ e ∈ getLastMessagesBetweenTwoUsers
      (sortBySentDesc (lastAggrEntries (store.filter (involves u)))),
      e ∈ store.filter (involves u) :=
    fun e he => (hesmem e (J1 e he)).1
  have hinvolves : ∀ x ∈ store.filter (involves u), involves u x = true :=
    fun x hx => (List.mem_filter.mp hx).2
  have hmax : ∀ e ∈ getLastMessagesBetweenTwoUsers
      (sortBySentDesc (lastAggrEntries (store.filter (involves u)))),
      ∀ m ∈ store.filter (involves u),
      counterpart u m = counterpart u e → m.sent ≤ e.sent := by
    intro e he m hm hc
    have hkme : dirKey m = dirKey e ∨ dirKey m = (dirKey e).swap :=
      (key_iff_counterpart u e m (hinvolves e (hRmem e he))
        (hinvolves m hm)).mpr hc
    obtain ⟨e0, he0, hk0⟩ := hcover m hm
    have h1 : m.sent ≤ e0.sent := (hesmem e0 he0).2 m hm hk0.symm
    have h2 : dirKey e0 = dirKey e ∨ dirKey e0 = (dirKey e).swap := by
      rw [hk0]
      exact hkme
    exact le_trans h1 (J4 e he e0 he0 h2)
  refine ⟨hRmem, ?_, ?_, hmax, ?_⟩
  · intro c
    constructor
    · intro ⟨m, hm, hc⟩
      obtain ⟨e0, he0, hk0⟩ := hcover m hm
      obtain ⟨e, he, hk⟩ := J3 e0 he0
      refine ⟨e, he, ?_⟩
      have hkem : dirKey e = dirKey m ∨ dirKey e = (dirKey m).swap := by
        rw [← hk0]
        exact hk
      have := (key_iff_counterpart u m e (hinvolves m hm)
        (hinvolves e (hRmem e he))).mp hkem
      rw [this, hc]
    · intro ⟨e, he, hc⟩
      exact ⟨e, hRmem e he, hc⟩
  · intro e1 he1 e2 he2 hc
    obtain ⟨i, hi, hie⟩ := List.mem_iff_getElem.mp he1
    obtain ⟨j, hj, hje⟩ := List.mem_iff_getElem.mp he2
    by_cases hij : i = j
    · subst hij
      rw [← hie, ← hje]
    · exfalso
      have hkk := (key_iff_counterpart u e2 e1
        (hinvolves e2 (hRmem e2 he2)) (hinvolves e1 (hRmem e1 he1))).mpr hc
      have hJ := J2 i j hi hj hij
      rw [hie, hje] at hJ
      rcases hkk with hkk | hkk
      · exact hJ.1 hkk
      · exact hJ.2 hkk
  · intro e he m hm hc hne
    have hle := hmax e he m hm hc
    have hsent : m.sent ≠ e.sent :=
      List.Pairwise.forall (fun _ _ h => Ne.symm h) hdistinct hm (hRmem e he) hne
    exact lt_of_le_of_ne hle hsent

/-- C8 witness: in the three-message example store, the query of user `1`
returns only stored messages of `1` and has an entry for each of the two
counterparts `2` and `3`. -/
theorem lastMessages_per_counterpart_witness :
    (∀ e ∈ getLastMessages msgStoreEx 1, e ∈ msgStoreEx.filter (involves 1)) ∧
    (∃ e ∈ getLastMessages msgStoreEx 1, counterpart 1 e = 2) ∧
    (∃ e ∈ getLastMessages msgStoreEx 1, counterpart 1 e = 3) := by
  have h := lastMessages_per_counterpart msgStoreEx 1 (by decide)
  refine ⟨h.1, ?_, ?_⟩
  · exact (h.2.1 2).mp ⟨⟨0, some "a", 1, 2, 10, 1, [], false⟩, by decide, rfl⟩
  · exact (h.2.1 3).mp ⟨⟨2, some "c", 1, 3, 5, 1, [], false⟩, by decide, rfl⟩

end LearnAtHome
